import Mathlib

/-!
Verification development for the portfolio data-acquisition and
normalization pipeline (`generate_projects.js` offline generator and the
browser-side `script.js` fallback).

The JavaScript source is shallowly embedded: strings are `List Char` or
`String`, JSON objects are Lean structures with `Option` fields where the
upstream value may be absent (`null`/missing), fallible network calls are
`Except String` values passed in as parameters, and the unbounded paging
loop takes explicit fuel (returning `none` only when the fuel is
exhausted, which never happens for an upstream that eventually returns a
short page).
-/

namespace Portfolio

/-- Upstream `license` object: `license.spdx_id` may be `null` upstream,
`license.name` is always a string when the object is present. -/
structure License where
  spdx_id : Option String
  name : String
deriving DecidableEq

/-- Upstream contributor entry as returned by the contributors endpoint. -/
structure RawContributor where
  login : String
  avatar_url : String
  html_url : String
  contributions : Nat
deriving DecidableEq

/-- Mapped contributor entry produced by `getContributors`
(`{ login, avatar: c.avatar_url, url: c.html_url, contributions }`). -/
structure Contributor where
  login : String
  avatar : String
  url : String
  contributions : Nat
deriving DecidableEq

/-- Screenshot entry `{src, alt}` (always empty at generation time). -/
structure Screenshot where
  src : String
  alt : String
deriving DecidableEq

/-- One upstream repository summary, restricted to the fields the two
normalizers consume.  Fields the code guards with `||` / `?:` defaults
are `Option`; the rest are required strings. -/
structure Upstream where
  name : String
  full_name : String
  html_url : String
  description : Option String
  topics : Option (List String)
  stargazers_count : Option Nat
  forks_count : Option Nat
  updated_at : String
  created_at : String
  language : Option String
  license : Option License
  size : Option Nat
  open_issues_count : Option Nat
  default_branch : Option String
deriving DecidableEq

/-- The offline generator's project record (`repoObj` in
`generate_projects.js`): the 16 keys of the object literal plus the two
enrichment keys `readme_excerpt` and `contributors` assigned right after. -/
structure ProjectRecord where
  name : String
  repo : String
  desc : String
  tags : List String
  stars : Nat
  forks : Nat
  featured : Bool
  updated_at : String
  created_at : String
  language : String
  license : String
  thumbnail : String
  screenshots : List Screenshot
  size : Nat
  open_issues_count : Nat
  default_branch : String
  readme_excerpt : String
  contributors : List Contributor
deriving DecidableEq

/-- The client-side fallback's mapped record (`fetchGitHubRepos` in
`script.js`): the mapped object literal has 17 keys — there is no
`contributors` key. -/
structure ClientRecord where
  name : String
  repo : String
  desc : String
  tags : List String
  stars : Nat
  forks : Nat
  featured : Bool
  updated_at : String
  created_at : String
  language : String
  license : String
  thumbnail : String
  screenshots : List Screenshot
  size : Nat
  open_issues_count : Nat
  default_branch : String
  readme_excerpt : String
deriving DecidableEq

/-- JavaScript `v || d` on a possibly-absent string: absent (`null`) and
the empty string are falsy and yield the default. -/
def jsOrStr (v : Option String) (d : String) : String :=
  match v with
  | none => d
  | some s => if s = "" then d else s

/-- JavaScript `v || 0` on a possibly-absent non-negative count: absent
yields 0 (a present 0 is falsy but `0 || 0` is 0 as well). -/
def jsOrNat (v : Option Nat) : Nat :=
  match v with
  | none => 0
  | some n => n

/-- `r.topics && r.topics.length ? r.topics : []`: absent or empty topics
become the empty list. -/
def jsTopics (v : Option (List String)) : List String :=
  match v with
  | none => []
  | some l => if l.length = 0 then [] else l

/-- `r.license ? (r.license.spdx_id || r.license.name) : ''`. -/
def licenseStr (v : Option License) : String :=
  match v with
  | none => ""
  | some l =>
    match l.spdx_id with
    | none => l.name
    | some s => if s = "" then l.name else s

/-- `safeThumbnail`: the GitHub Open Graph image URL for a full name. -/
def safeThumbnail (fullName : String) : String :=
  "https://opengraph.githubassets.com/1/" ++ fullName

/-! ### Excerpt derivation (`excerptMarkdown`)

Each regex replace of the source is embedded as a scanner over `List Char`.
JavaScript's `.` does not match line terminators; the ASCII ones that can
occur here are `\n` and `\r`. -/

/-- A character the JavaScript regex `.` does not match. -/
def isTerm (c : Char) : Bool := c = '\n' || c = '\r'

/-- Lazy `.*?\)`: skip to the earliest `)` reachable without crossing a
line terminator; return the remainder after it. -/
def findCloseParen : List Char → Option (List Char)
  | [] => none
  | c :: rest =>
    if c = ')' then some rest
    else if isTerm c then none
    else findCloseParen rest

/-- Lazy `.*?\]\(`: split at the earliest `](` reachable without crossing
a line terminator, returning the skipped text and the remainder after
the `](`. -/
def splitBracketParen : List Char → Option (List Char × List Char)
  | [] => none
  | [_] => none
  | c1 :: c2 :: rest =>
    if c1 = ']' ∧ c2 = '(' then some ([], rest)
    else if isTerm c1 then none
    else
      match splitBracketParen (c2 :: rest) with
      | some (txt, r) => some (c1 :: txt, r)
      | none => none

theorem findCloseParen_length : ∀ {l r : List Char}, findCloseParen l = some r → r.length < l.length := by
  intro l
  induction l with
  | nil => intro r h; simp [findCloseParen] at h
  | cons c rest ih =>
    intro r h
    simp only [findCloseParen] at h
    by_cases hc : c = ')'
    · simp [hc] at h; simp [← h]
    · by_cases ht : isTerm c
      · simp [hc, ht] at h
      · simp [hc, ht] at h
        exact Nat.lt_succ_of_lt (ih h)

theorem splitBracketParen_length : ∀ {l : List Char} {t r : List Char},
    splitBracketParen l = some (t, r) → r.length < l.length := by
  intro l
  induction l with
  | nil => intro t r h; simp [splitBracketParen] at h
  | cons c rest ih =>
    intro t r h
    cases rest with
    | nil => simp [splitBracketParen] at h
    | cons c2 rest2 =>
      simp only [splitBracketParen] at h
      split at h
      · cases h; simp; omega
      · split at h
        · cases h
        · cases heq : splitBracketParen (c2 :: rest2) with
          | none => rw [heq] at h; cases h
          | some p =>
            obtain ⟨txt, r0⟩ := p
            rw [heq] at h
            cases h
            exact Nat.lt_succ_of_lt (ih heq)

/-- Tail of an image match: after the leading `!`, the input must
continue `[`, then `.*?](.*?)`; returns the remainder after the closing
parenthesis, or `none` when no match starts here. -/
def matchImageTail (l : List Char) : Option (List Char) :=
  match l with
  | '[' :: rest =>
    match splitBracketParen rest with
    | some (_, r2) => findCloseParen r2
    | none => none
  | _ => none

theorem matchImageTail_length {l r : List Char} (h : matchImageTail l = some r) :
    r.length < l.length := by
  unfold matchImageTail at h
  split at h
  · rename_i rest
    cases heq : splitBracketParen rest with
    | none => rw [heq] at h; cases h
    | some p =>
      obtain ⟨txt, r2⟩ := p
      rw [heq] at h
      have h1 := splitBracketParen_length heq
      have h2 := findCloseParen_length h
      simp only [List.length_cons]
      omega
  · cases h

/-- `t.replace(/!\[.*?\]\(.*?\)/g, '')`: global removal of image embeds.
On a failed match attempt the scan restarts one character further, as the
regex engine does. -/
def stripImages (l : List Char) : List Char :=
  match l with
  | [] => []
  | c :: rest =>
    if c = '!' then
      match h : matchImageTail rest with
      | some r => stripImages r
      | none => '!' :: stripImages rest
    else c :: stripImages rest
termination_by l.length
decreasing_by
  · have := matchImageTail_length h
    simp only [List.length_cons]
    omega
  · simp
  · simp

/-- Lazy `[\s\S]*?` + closing fence: skip to the earliest triple backtick
(newlines allowed), returning the remainder after it. -/
def findTriple : List Char → Option (List Char)
  | [] => none
  | [_] => none
  | [_, _] => none
  | c1 :: c2 :: c3 :: rest =>
    if c1 = '`' ∧ c2 = '`' ∧ c3 = '`' then some rest
    else findTriple (c2 :: c3 :: rest)

theorem findTriple_length : ∀ {l r : List Char}, findTriple l = some r → r.length < l.length := by
  intro l
  induction l with
  | nil => intro r h; simp [findTriple] at h
  | cons c rest ih =>
    intro r h
    match rest with
    | [] => simp [findTriple] at h
    | [c2] => simp [findTriple] at h
    | c2 :: c3 :: rest3 =>
      simp only [findTriple] at h
      split at h
      · cases h; simp; omega
      · exact Nat.lt_succ_of_lt (ih h)

/-- `t.replace(/```[\s\S]*?```/g, '')`: global removal of fenced code
blocks (the lazy body may span newlines); an unclosed fence is left in
place and scanning restarts one character further. -/
def stripCode (l : List Char) : List Char :=
  match l with
  | c1 :: c2 :: c3 :: rest =>
    if c1 = '`' ∧ c2 = '`' ∧ c3 = '`' then
      match h : findTriple rest with
      | some r => stripCode r
      | none => c1 :: stripCode (c2 :: c3 :: rest)
    else c1 :: stripCode (c2 :: c3 :: rest)
  | c :: rest => c :: stripCode rest
  | [] => []
termination_by l.length
decreasing_by
  · have := findTriple_length h
    simp only [List.length_cons]
    omega
  all_goals simp

/-- Two-state scanner equivalent to `t.replace(/#.+/g, '')`: in the
`false` state characters are copied; a `#` followed by at least one
non-terminator character starts a match, switching to the `true` state in
which the rest of the line (the `.+` body) is dropped.  A `#` at the end
of its line has no `.+` to match and is kept. -/
def stripHashGo : Bool → List Char → List Char
  | _, [] => []
  | true, c :: rest => if isTerm c then c :: stripHashGo false rest else stripHashGo true rest
  | false, [c] => if c = '#' then ['#'] else [c]
  | false, c :: c2 :: rest2 =>
    if c = '#' then
      if isTerm c2 then '#' :: stripHashGo false (c2 :: rest2)
      else stripHashGo true rest2
    else c :: stripHashGo false (c2 :: rest2)

/-- `t.replace(/#.+/g, '')` — remove headings roughly. -/
def stripHash (l : List Char) : List Char := stripHashGo false l

/-- `t.replace(/\[(.*?)\]\(.*?\)/g, '$1')`: collapse links to their
visible text.  The replacement text is emitted without being rescanned,
as with JavaScript `String.replace`. -/
def collapseLinks (l : List Char) : List Char :=
  match l with
  | [] => []
  | c :: rest =>
    if c = '[' then
      match h : splitBracketParen rest with
      | some (txt, r2) =>
        match h2 : findCloseParen r2 with
        | some r3 => txt ++ collapseLinks r3
        | none => '[' :: collapseLinks rest
      | none => '[' :: collapseLinks rest
    else c :: collapseLinks rest
termination_by l.length
decreasing_by
  · have ha := splitBracketParen_length h
    have hb := findCloseParen_length h2
    simp only [List.length_cons]
    omega
  all_goals simp

/-- `t.replace(/\r\n/g, '\n')`. -/
def normEol : List Char → List Char
  | [] => []
  | [c] => [c]
  | c1 :: c2 :: rest =>
    if c1 = '\r' ∧ c2 = '\n' then '\n' :: normEol rest
    else c1 :: normEol (c2 :: rest)

/-- The whitespace class of JavaScript `String.prototype.trim`,
restricted to its ASCII members. -/
def isJsSpace (c : Char) : Bool :=
  c = ' ' || c = '\t' || c = '\n' || c = '\r' || c = '\x0b' || c = '\x0c'

/-- `t.trim()`. -/
def trimChars (l : List Char) : List Char :=
  ((l.dropWhile isJsSpace).reverse.dropWhile isJsSpace).reverse

/-- The cleaning pipeline of `excerptMarkdown` before truncation, in
source order: images, code fences, headings, links, CRLF normalization,
trim. -/
def cleanMarkdown (md : List Char) : List Char :=
  trimChars (normEol (collapseLinks (stripHash (stripCode (stripImages md)))))

/-- `function excerptMarkdown(md, maxLen)`: empty (falsy) input yields
the empty string; otherwise the cleaned text, truncated to
`maxLen - 3` characters plus `'...'` when it is longer than `maxLen`. -/
def excerptMarkdown (md : List Char) (maxLen : Nat) : List Char :=
  if md = [] then []
  else if (cleanMarkdown md).length ≤ maxLen then cleanMarkdown md
  else (cleanMarkdown md).take (maxLen - 3) ++ ['.', '.', '.']

/-- `excerptMarkdown` lifted to `String` for use in the record builder. -/
def excerptMarkdownStr (md : String) (maxLen : Nat) : String :=
  ⟨excerptMarkdown md.data maxLen⟩

/-! ### Enrichment (`getRepoReadme`, `getContributors`)

Each network fetch is a parameter of type `Except String _`: `.error`
models a thrown transport failure, and for the README endpoint
`.ok none` models `fetchRaw` returning `null` on a non-success status. -/

/-- `getRepoReadme`: the surrounding `try/catch` turns a thrown failure
into `null`; a non-success status already came back as `null` from
`fetchRaw`. -/
def getRepoReadme (fetchResult : Except String (Option String)) : Option String :=
  match fetchResult with
  | .error _ => none
  | .ok v => v

/-- The per-contributor mapping inside `getContributors`. -/
def mapContributor (c : RawContributor) : Contributor :=
  { login := c.login, avatar := c.avatar_url, url := c.html_url,
    contributions := c.contributions }

/-- `getContributors`: maps the fetched entries; the surrounding
`try/catch` turns any failure into the empty list. -/
def getContributors (fetchResult : Except String (List RawContributor)) : List Contributor :=
  match fetchResult with
  | .error _ => []
  | .ok data => data.map mapContributor

/-! ### Normalizer -/

/-- The `repoObj` construction of the offline generator's main loop: the
object literal of lines 112-129 plus the two best-effort enrichment
assignments (`readme_excerpt` via `if (readme) ... excerptMarkdown(readme, 1400)`,
and `contributors`). -/
def repoObj (r : Upstream) (readmeFetch : Except String (Option String))
    (contribFetch : Except String (List RawContributor)) : ProjectRecord :=
  { name := r.name
    repo := r.html_url
    desc := jsOrStr r.description ""
    tags := jsTopics r.topics
    stars := jsOrNat r.stargazers_count
    forks := jsOrNat r.forks_count
    featured := false
    updated_at := r.updated_at
    created_at := r.created_at
    language := jsOrStr r.language ""
    license := licenseStr r.license
    thumbnail := safeThumbnail r.full_name
    screenshots := []
    size := jsOrNat r.size
    open_issues_count := jsOrNat r.open_issues_count
    default_branch := jsOrStr r.default_branch "main"
    readme_excerpt :=
      match getRepoReadme readmeFetch with
      | some s => if s = "" then "" else excerptMarkdownStr s 1400
      | none => ""
    contributors := getContributors contribFetch }

/-- The per-repository mapping inside the client-side `fetchGitHubRepos`
(`script.js`): same defaults as `repoObj`, `readme_excerpt` hardcoded to
the empty string, and no `contributors` key at all. -/
def clientMapRepo (r : Upstream) : ClientRecord :=
  { name := r.name
    repo := r.html_url
    desc := jsOrStr r.description ""
    tags := jsTopics r.topics
    stars := jsOrNat r.stargazers_count
    forks := jsOrNat r.forks_count
    featured := false
    updated_at := r.updated_at
    created_at := r.created_at
    language := jsOrStr r.language ""
    license := licenseStr r.license
    thumbnail := safeThumbnail r.full_name
    screenshots := []
    size := jsOrNat r.size
    open_issues_count := jsOrNat r.open_issues_count
    default_branch := jsOrStr r.default_branch "main"
    readme_excerpt := "" }

/-- The fields of the Project Record data model (the documented output
shape of the generator, including the two enrichment fields). -/
def projectFields : List String :=
  ["name", "repo", "desc", "tags", "stars", "forks", "featured",
   "updated_at", "created_at", "language", "license", "thumbnail",
   "screenshots", "size", "open_issues_count", "default_branch",
   "readme_excerpt", "contributors"]

/-- The keys the offline generator assigns on each record: the 16 keys of
the `repoObj` literal plus `readme_excerpt` and `contributors`. -/
def repoObjFields : List String :=
  ["name", "repo", "desc", "tags", "stars", "forks", "featured",
   "updated_at", "created_at", "language", "license", "thumbnail",
   "screenshots", "size", "open_issues_count", "default_branch",
   "readme_excerpt", "contributors"]

/-- The keys of the client-side mapped object literal (`script.js`
lines 325-343): 17 keys, ending at `readme_excerpt` — no `contributors`. -/
def clientMapFields : List String :=
  ["name", "repo", "desc", "tags", "stars", "forks", "featured",
   "updated_at", "created_at", "language", "license", "thumbnail",
   "screenshots", "size", "open_issues_count", "default_branch",
   "readme_excerpt"]

/-! ### Ranker

`projects.sort((a,b) => (b.stars||0)-(a.stars||0))` is ECMAScript
`Array.prototype.sort`, required to be stable; with the comparator's
total preorder (descending by `stars`) every stable sort computes the
same list, embedded here as a stable insertion sort.  `slice(0,3)`
aliases the first three records, so the `forEach` marks exactly the first
three elements of the sorted array as featured. -/

/-- Stable descending insertion by the key `k`: an incoming element
(earlier in the input) is placed before every element with the same
key. -/
def insertByKey (k : α → Nat) (x : α) : List α → List α
  | [] => [x]
  | y :: ys => if k y ≤ k x then x :: y :: ys else y :: insertByKey k x ys

/-- Stable sort, descending by the key `k`. -/
def sortByKey (k : α → Nat) : List α → List α
  | [] => []
  | x :: xs => insertByKey k x (sortByKey k xs)

/-- `sorted.slice(0,3).forEach(p => p.featured = true)`: mark the first
three records of a list. -/
def featureTop3 (setTrue : α → α) (l : List α) : List α :=
  (l.take 3).map setTrue ++ l.drop 3

/-- Write the `featured` flag of an offline record. -/
def setFeatured (b : Bool) (p : ProjectRecord) : ProjectRecord :=
  { p with featured := b }

/-- Lines 160-162 of the generator: sort descending by stars, then mark
the top 3 as featured. -/
def rank (ps : List ProjectRecord) : List ProjectRecord :=
  featureTop3 (setFeatured true) (sortByKey (fun p => p.stars) ps)

/-- Write the `featured` flag of a client-side record. -/
def setFeaturedC (b : Bool) (p : ClientRecord) : ClientRecord :=
  { p with featured := b }

/-! ### Collector (`listRepos`)

The upstream is a function from page number to either a thrown error
(`fetchJson` throws on any non-success status) or the page's items.  The
unbounded `while (true)` loop is given explicit fuel; `none` means the
fuel ran out before a short page was seen.  The result carries the
concatenated items together with the number of page requests issued. -/

/-- The fixed page size (`const perPage = 100`). -/
def perPage : Nat := 100

/-- The paging loop of `listRepos`, starting at `page`. -/
def listReposFrom (up : Nat → Except String (List α)) :
    Nat → Nat → Option (Except String (List α × Nat))
  | 0, _ => none
  | fuel + 1, page =>
    match up page with
    | .error e => some (.error e)
    | .ok data =>
      if data.length < perPage then some (.ok (data, 1))
      else
        match listReposFrom up fuel (page + 1) with
        | none => none
        | some (.error e) => some (.error e)
        | some (.ok (rest, n)) => some (.ok (data ++ rest, n + 1))

/-- `listRepos`: pages are requested sequentially starting at page 1. -/
def listRepos (up : Nat → Except String (List α)) (fuel : Nat) :
    Option (Except String (List α × Nat)) :=
  listReposFrom up fuel 1

/-! ### Client-side fallback fetch (`fetchGitHubRepos` in `script.js`) -/

/-- `const FALLBACK_USERNAME = 'maryamali27'`. -/
def FALLBACK_USERNAME : String := "maryamali27"

/-- The single listing URL the client builds (for the fallback username,
`encodeURIComponent` is the identity). -/
def clientListUrl (username : String) : String :=
  "https://api.github.com/users/" ++ username ++ "/repos?per_page=100&sort=updated"

/-- Upstream behaviour of the listing endpoint as documented: for an
account whose full repository list is `repos`, a request with `per_page`
and `page` (defaulting to 1 when the parameter is absent) returns that
page's slice. -/
def serveRepoList (repos : List Upstream) (pp page : Nat) : List Upstream :=
  (repos.drop ((page - 1) * pp)).take pp

/-- The client-side fallback: one listing request (`per_page=100`, no
`page` parameter, so the upstream serves page 1), mapped per repository,
then the same sort-and-feature step as the generator. -/
def fetchGitHubRepos (accountRepos : List Upstream) : List ClientRecord :=
  let data := serveRepoList accountRepos 100 1
  let mapped := data.map clientMapRepo
  featureTop3 (setFeaturedC true) (sortByKey (fun p => p.stars) mapped)

/-! ### Lemmas about the stable sort -/

theorem insertByKey_perm (k : α → Nat) (x : α) (l : List α) :
    (insertByKey k x l).Perm (x :: l) := by
  induction l with
  | nil => simp [insertByKey]
  | cons y ys ih =>
    simp only [insertByKey]
    split
    · exact List.Perm.refl _
    · exact (ih.cons y).trans (List.Perm.swap x y ys)

theorem sortByKey_perm (k : α → Nat) (l : List α) : (sortByKey k l).Perm l := by
  induction l with
  | nil => simp [sortByKey]
  | cons x xs ih => exact (insertByKey_perm k x _).trans (ih.cons x)

theorem insertByKey_sorted (k : α → Nat) (x : α) (l : List α)
    (h : l.Pairwise (fun a b => k b ≤ k a)) :
    (insertByKey k x l).Pairwise (fun a b => k b ≤ k a) := by
  induction l with
  | nil => simp [insertByKey]
  | cons y ys ih =>
    rcases List.pairwise_cons.mp h with ⟨hy, hys⟩
    simp only [insertByKey]
    split
    · next hle =>
      refine List.pairwise_cons.mpr ⟨?_, h⟩
      intro b hb
      rcases List.mem_cons.mp hb with rfl | hb
      · exact hle
      · exact le_trans (hy b hb) hle
    · next hgt =>
      refine List.pairwise_cons.mpr ⟨?_, ih hys⟩
      intro b hb
      have hb' := (insertByKey_perm k x ys).mem_iff.mp hb
      rcases List.mem_cons.mp hb' with rfl | hb'
      · exact Nat.le_of_lt (Nat.lt_of_not_le hgt)
      · exact hy b hb'

theorem sortByKey_sorted (k : α → Nat) (l : List α) :
    (sortByKey k l).Pairwise (fun a b => k b ≤ k a) := by
  induction l with
  | nil => simp [sortByKey]
  | cons x xs ih => exact insertByKey_sorted k x _ ih

theorem insertByKey_filter (k : α → Nat) (x : α) (l : List α) (s : Nat) :
    (insertByKey k x l).filter (fun a => k a == s)
      = if k x = s then x :: l.filter (fun a => k a == s)
        else l.filter (fun a => k a == s) := by
  induction l with
  | nil =>
    by_cases hx : k x = s <;> simp [insertByKey, List.filter_cons, hx]
  | cons y ys ih =>
    simp only [insertByKey]
    split
    · next hle =>
      by_cases hx : k x = s <;> simp [List.filter_cons, hx]
    · next hgt =>
      have hxy : k x < k y := Nat.lt_of_not_le hgt
      by_cases hx : k x = s
      · have hy : ¬ (k y = s) := by omega
        simp [List.filter_cons, hx, hy, ih]
      · by_cases hy : k y = s <;> simp [List.filter_cons, hx, hy, ih]

theorem sortByKey_filter (k : α → Nat) (l : List α) (s : Nat) :
    (sortByKey k l).filter (fun a => k a == s) = l.filter (fun a => k a == s) := by
  induction l with
  | nil => simp [sortByKey]
  | cons x xs ih =>
    simp only [sortByKey, insertByKey_filter, List.filter_cons]
    by_cases hx : k x = s <;> simp [hx, ih]

theorem featureTop3_map_eq {α β : Type} (f : α → α) (g : α → β) (l : List α)
    (hgf : ∀ a, g (f a) = g a) :
    (featureTop3 f l).map g = l.map g := by
  have h1 : (l.take 3).map (g ∘ f) = (l.take 3).map g :=
    List.map_congr_left (fun a _ => hgf a)
  calc (featureTop3 f l).map g
      = ((l.take 3).map f).map g ++ (l.drop 3).map g := by
        simp [featureTop3]
    _ = (l.take 3).map g ++ (l.drop 3).map g := by
        rw [List.map_map, h1]
    _ = l.map g := by rw [← List.map_append, List.take_append_drop]

/-- A record already carrying `featured = false` is unchanged by
clearing the flag. -/
theorem setFeatured_eq_self {p : ProjectRecord} (h : p.featured = false) :
    setFeatured false p = p := by
  cases p
  simp only [setFeatured]
  simp_all

/-- A fixed concrete record shape used by the concrete instantiations. -/
def sampleRec (nm : String) (st : Nat) : ProjectRecord :=
  { name := nm, repo := "", desc := "", tags := [], stars := st, forks := 0,
    featured := false, updated_at := "", created_at := "", language := "",
    license := "", thumbnail := "", screenshots := [], size := 0,
    open_issues_count := 0, default_branch := "main", readme_excerpt := "",
    contributors := [] }

/-- C2: ranking a collection whose records all start with
`featured = false` only rewrites `featured` flags (clearing them recovers
a permutation of the input); when the collection has fewer than 3
records, every output record is featured; when it has at least 3 records
with pairwise distinct star counts, exactly 3 output records are
featured, and every featured record has strictly more stars than every
non-featured one — i.e. the featured ones are the 3 highest-star
records. -/
theorem ranker_top3 (ps : List ProjectRecord)
    (h0 : ∀ p ∈ ps, p.featured = false) :
    ((rank ps).map (setFeatured false)).Perm ps
    ∧ (ps.length < 3 → ∀ p ∈ rank ps, p.featured = true)
    ∧ (3 ≤ ps.length → ps.Pairwise (fun a b => a.stars ≠ b.stars) →
        ((rank ps).countP (fun p => p.featured) = 3
         ∧ ∀ p ∈ rank ps, ∀ q ∈ rank ps, p.featured = true → q.featured = false →
             q.stars < p.stars)) := by
  have hperm : (sortByKey (fun p => p.stars) ps).Perm ps := sortByKey_perm _ _
  have hsorted := sortByKey_sorted (fun p : ProjectRecord => p.stars) ps
  set L := sortByKey (fun p : ProjectRecord => p.stars) ps with hL
  have hlen : L.length = ps.length := hperm.length_eq
  have hrank : rank ps = (L.take 3).map (setFeatured true) ++ L.drop 3 := rfl
  have hmemL : ∀ p ∈ L, p.featured = false := fun p hp => h0 p (hperm.mem_iff.mp hp)
  refine ⟨?_, ?_, ?_⟩
  · -- clearing the flags recovers the input up to permutation
    have h1 : (rank ps).map (setFeatured false) = L.map (setFeatured false) := by
      have : ∀ a, setFeatured false (setFeatured true a) = setFeatured false a := by
        intro a; cases a; simp [setFeatured]
      exact featureTop3_map_eq _ _ _ this
    rw [h1]
    have h2 : L.map (setFeatured false) = L.map id :=
      List.map_congr_left (fun a ha => setFeatured_eq_self (hmemL a ha))
    rw [h2, List.map_id]
    exact hperm
  · -- fewer than 3 records: everything is featured
    intro hsmall p hp
    have hdrop : L.drop 3 = [] := by
      apply List.drop_eq_nil_of_le; omega
    rw [hrank, hdrop, List.append_nil] at hp
    rcases List.mem_map.mp hp with ⟨a, _, rfl⟩
    cases a; simp [setFeatured]
  · -- at least 3 records, distinct stars
    intro h3 hdist
    have hLdist : L.Pairwise (fun a b => a.stars ≠ b.stars) :=
      (List.Perm.pairwise_iff (fun h heq => h heq.symm) hperm).mpr hdist
    have hstrict : L.Pairwise (fun a b => b.stars < a.stars) := by
      have := hsorted.and hLdist
      exact this.imp (fun h => Nat.lt_of_le_of_ne h.1 (fun heq => h.2 heq.symm))
    have hsplit : L.take 3 ++ L.drop 3 = L := List.take_append_drop 3 L
    have hcross : ∀ a ∈ L.take 3, ∀ b ∈ L.drop 3, b.stars < a.stars := by
      have := hsplit ▸ hstrict
      exact (List.pairwise_append.mp this).2.2
    have htklen : (L.take 3).length = 3 := by
      rw [List.length_take]; omega
    constructor
    · -- exactly three featured records
      rw [hrank, List.countP_append]
      have hc1 : ((L.take 3).map (setFeatured true)).countP (fun p => p.featured) = 3 := by
        have : ∀ p ∈ (L.take 3).map (setFeatured true), (fun p : ProjectRecord => p.featured) p = true := by
          intro p hp
          rcases List.mem_map.mp hp with ⟨a, _, rfl⟩
          cases a; simp [setFeatured]
        rw [List.countP_eq_length.mpr this, List.length_map, htklen]
      have hc2 : (L.drop 3).countP (fun p => p.featured) = 0 := by
        apply List.countP_eq_zero.mpr
        intro p hp
        have := hmemL p (List.mem_of_mem_drop hp)
        simp [this]
      omega
    · -- every featured record out-stars every non-featured record
      intro p hp q hq hpt hqf
      rw [hrank] at hp hq
      have hpA : p ∈ (L.take 3).map (setFeatured true) := by
        rcases List.mem_append.mp hp with h | h
        · exact h
        · exact absurd hpt (by simp [hmemL p (List.mem_of_mem_drop h)])
      have hqB : q ∈ L.drop 3 := by
        rcases List.mem_append.mp hq with h | h
        · rcases List.mem_map.mp h with ⟨b, _, rfl⟩
          exact absurd hqf (by cases b; simp [setFeatured])
        · exact h
      rcases List.mem_map.mp hpA with ⟨a, ha, rfl⟩
      have : (setFeatured true a).stars = a.stars := by cases a; simp [setFeatured]
      rw [this]
      exact hcross a ha q hqB

/-- Witness for `ranker_top3`: on a concrete 4-record collection with
distinct stars, exactly 3 records end up featured. -/
theorem ranker_top3_witness :
    (rank [sampleRec "a" 5, sampleRec "b" 2, sampleRec "c" 9, sampleRec "d" 4]).countP
      (fun p => p.featured) = 3 :=
  ((ranker_top3 [sampleRec "a" 5, sampleRec "b" 2, sampleRec "c" 9, sampleRec "d" 4]
    (by decide)).2.2 (by decide) (by decide)).1

/-- C3: the Ranker's descending sort by `stars` is stable — for every
input collection and every star value, the records carrying that value
appear in the sorted output in exactly their input order. -/
theorem ranker_sort_stable (ps : List ProjectRecord) (s : Nat) :
    (sortByKey (fun p => p.stars) ps).filter (fun p => p.stars == s)
      = ps.filter (fun p => p.stars == s) :=
  sortByKey_filter _ _ _

/-! ### Collector theorems -/

/-- Paging loop invariant: starting at `page`, if the next `n` pages are
full (100 items) and page `page + n` is short, the loop returns the
concatenation of pages `page .. page + n` and issues `n + 1` requests. -/
theorem listReposFrom_ok {α : Type} (data : Nat → List α) :
    ∀ (n page fuel : Nat),
      (∀ k, k < n → (data (page + k)).length = perPage) →
      (data (page + n)).length < perPage →
      n < fuel →
      listReposFrom (fun p => Except.ok (data p)) fuel page
        = some (Except.ok (((List.range' page (n + 1)).map data).flatten, n + 1)) := by
  intro n
  induction n with
  | zero =>
    intro page fuel hfull hshort hfuel
    match fuel, hfuel with
    | fuel + 1, _ =>
      simp only [listReposFrom]
      rw [if_pos (by simpa using hshort)]
      simp
  | succ n ih =>
    intro page fuel hfull hshort hfuel
    match fuel, hfuel with
    | fuel + 1, hfuel =>
      simp only [listReposFrom]
      have h0 : (data page).length = perPage := by simpa using hfull 0 (Nat.succ_pos n)
      rw [if_neg (by omega)]
      have hfull' : ∀ k, k < n → (data (page + 1 + k)).length = perPage := by
        intro k hk
        have := hfull (k + 1) (by omega)
        have harith : page + (k + 1) = page + 1 + k := by omega
        rwa [harith] at this
      have hshort' : (data (page + 1 + n)).length < perPage := by
        have harith : page + (n + 1) = page + 1 + n := by omega
        rwa [harith] at hshort
      rw [ih (page + 1) fuel hfull' hshort' (by omega)]
      have hr : ((List.range' page (n + 1 + 1)).map data).flatten
          = data page ++ ((List.range' (page + 1) (n + 1)).map data).flatten := by
        rw [List.range'_succ]
        simp
      rw [hr]

/-- C4: the Collector requests 100-item pages sequentially from page 1
and stops exactly at the first page returning fewer than 100 items,
concatenating all fetched pages in order and having issued exactly
`n + 1` requests when pages `1 .. n` were full and page `n + 1` was
short. -/
theorem listRepos_pagination {α : Type} (data : Nat → List α) (n fuel : Nat)
    (hfull : ∀ k, k < n → (data (k + 1)).length = perPage)
    (hshort : (data (n + 1)).length < perPage)
    (hfuel : n < fuel) :
    listRepos (fun p => Except.ok (data p)) fuel
      = some (Except.ok (((List.range' 1 (n + 1)).map data).flatten, n + 1)) := by
  apply listReposFrom_ok data n 1 fuel
  · intro k hk
    have := hfull k hk
    have harith : k + 1 = 1 + k := by omega
    rwa [harith] at this
  · have harith : n + 1 = 1 + n := by omega
    rwa [harith] at hshort
  · exact hfuel

/-- The mock upstream of the spec's pagination property: pages of
100, 100 and 37 items. -/
def mockPages (p : Nat) : List Nat :=
  if p ≤ 2 then List.replicate 100 0 else if p = 3 then List.replicate 37 0 else []

/-- Witness for `listRepos_pagination`: on the 100/100/37 mock upstream
the Collector returns all 237 items using exactly 3 page requests. -/
theorem listRepos_pagination_witness :
    listRepos (fun p => Except.ok (mockPages p)) 5
      = some (Except.ok (List.replicate 237 (0 : Nat), 3)) := by
  have h := listRepos_pagination mockPages 2 5 (by decide) (by decide) (by decide)
  rw [h]
  have hr : ((List.range' 1 (2 + 1)).map mockPages).flatten = List.replicate 237 (0 : Nat) := by
    have h13 : List.range' 1 (2 + 1) = [1, 2, 3] := rfl
    rw [h13]
    simp only [List.map_cons, List.map_nil, List.flatten_cons, List.flatten_nil]
    norm_num [mockPages, ← List.replicate_add]
  rw [hr]

/-- Abort invariant: if pages `page .. page + m - 1` are full and the
request for page `page + m` fails, the loop yields exactly the error —
no items. -/
theorem listReposFrom_error {α : Type} (up : Nat → Except String (List α)) (e : String) :
    ∀ (m page fuel : Nat),
      (∀ k, k < m → ∃ d, up (page + k) = Except.ok d ∧ d.length = perPage) →
      up (page + m) = Except.error e →
      m < fuel →
      listReposFrom up fuel page = some (Except.error e) := by
  intro m
  induction m with
  | zero =>
    intro page fuel hok herr hfuel
    match fuel, hfuel with
    | fuel + 1, _ =>
      simp only [listReposFrom]
      rw [show up page = Except.error e from by simpa using herr]
  | succ m ih =>
    intro page fuel hok herr hfuel
    match fuel, hfuel with
    | fuel + 1, hfuel =>
      obtain ⟨d, hd, hdlen⟩ := by simpa using hok 0 (Nat.succ_pos m)
      simp only [listReposFrom, hd, hdlen]
      rw [if_neg (Nat.lt_irrefl _)]
      have hok' : ∀ k, k < m → ∃ d, up (page + 1 + k) = Except.ok d ∧ d.length = perPage := by
        intro k hk
        have := hok (k + 1) (by omega)
        have harith : page + (k + 1) = page + 1 + k := by omega
        rwa [harith] at this
      have herr' : up (page + 1 + m) = Except.error e := by
        have harith : page + (m + 1) = page + 1 + m := by omega
        rwa [harith] at herr
      rw [ih (page + 1) fuel hok' herr' (by omega)]

/-- C5: if any page request fails, the whole collection attempt yields
exactly the upstream error — the caller never sees the items of the
pages that succeeded before the failure. -/
theorem listRepos_abort {α : Type} (up : Nat → Except String (List α)) (m fuel : Nat)
    (e : String)
    (hok : ∀ k, k < m → ∃ d, up (k + 1) = Except.ok d ∧ d.length = perPage)
    (herr : up (m + 1) = Except.error e)
    (hfuel : m < fuel) :
    listRepos up fuel = some (Except.error e) := by
  apply listReposFrom_error up e m 1 fuel
  · intro k hk
    have := hok k hk
    have harith : k + 1 = 1 + k := by omega
    rwa [harith] at this
  · have harith : m + 1 = 1 + m := by omega
    rwa [harith] at herr
  · exact hfuel

/-- A mock upstream whose first page is full and whose second page
request fails. -/
def mockFailingUp (p : Nat) : Except String (List Nat) :=
  if p = 1 then Except.ok (List.replicate 100 0) else Except.error "HTTP 500"

/-- Witness for `listRepos_abort`: with a full first page and a failing
second request, the Collector returns only the error. -/
theorem listRepos_abort_witness :
    listRepos mockFailingUp 3 = some (Except.error "HTTP 500") :=
  listRepos_abort mockFailingUp 1 3 "HTTP 500"
    (fun k hk => by
      have hk0 : k = 0 := by omega
      subst hk0
      exact ⟨List.replicate 100 0, rfl, by decide⟩)
    rfl (by decide)

/-! ### Enrichment-failure absorption -/

/-- C6: enrichment failures are absorbed locally and never fail the
pipeline (by construction `repoObj` always yields a record): a thrown or
non-success README fetch yields `readme_excerpt = ""`, a failed
contributor fetch yields `contributors = []`, and changing one
enrichment result changes no other field of the same record, no
enrichment field of the other kind, and no record of a repository whose
fetch results are unchanged. -/
theorem enrichment_isolated (r : Upstream)
    (rf rf' : Except String (Option String))
    (cf cf' : Except String (List RawContributor)) (e e' : String) :
    (repoObj r (Except.error e) cf).readme_excerpt = ""
    ∧ (repoObj r (Except.ok none) cf).readme_excerpt = ""
    ∧ (repoObj r rf (Except.error e')).contributors = []
    ∧ ((repoObj r rf cf).name = (repoObj r rf' cf').name
       ∧ (repoObj r rf cf).repo = (repoObj r rf' cf').repo
       ∧ (repoObj r rf cf).desc = (repoObj r rf' cf').desc
       ∧ (repoObj r rf cf).tags = (repoObj r rf' cf').tags
       ∧ (repoObj r rf cf).stars = (repoObj r rf' cf').stars
       ∧ (repoObj r rf cf).forks = (repoObj r rf' cf').forks
       ∧ (repoObj r rf cf).featured = (repoObj r rf' cf').featured
       ∧ (repoObj r rf cf).updated_at = (repoObj r rf' cf').updated_at
       ∧ (repoObj r rf cf).created_at = (repoObj r rf' cf').created_at
       ∧ (repoObj r rf cf).language = (repoObj r rf' cf').language
       ∧ (repoObj r rf cf).license = (repoObj r rf' cf').license
       ∧ (repoObj r rf cf).thumbnail = (repoObj r rf' cf').thumbnail
       ∧ (repoObj r rf cf).screenshots = (repoObj r rf' cf').screenshots
       ∧ (repoObj r rf cf).size = (repoObj r rf' cf').size
       ∧ (repoObj r rf cf).open_issues_count = (repoObj r rf' cf').open_issues_count
       ∧ (repoObj r rf cf).default_branch = (repoObj r rf' cf').default_branch)
    ∧ (repoObj r rf cf).contributors = (repoObj r rf' cf).contributors
    ∧ (repoObj r rf cf).readme_excerpt = (repoObj r rf cf').readme_excerpt
    ∧ (∀ (rr : Upstream) (RF RF' : String → Except String (Option String))
         (CF CF' : String → Except String (List RawContributor)),
        (∀ nm, nm ≠ r.full_name → RF nm = RF' nm ∧ CF nm = CF' nm) →
        rr.full_name ≠ r.full_name →
        repoObj rr (RF rr.full_name) (CF rr.full_name)
          = repoObj rr (RF' rr.full_name) (CF' rr.full_name)) := by
  refine ⟨rfl, rfl, rfl,
    ⟨rfl, rfl, rfl, rfl, rfl, rfl, rfl, rfl, rfl, rfl, rfl, rfl, rfl, rfl, rfl, rfl⟩,
    rfl, rfl, ?_⟩
  intro rr RF RF' CF CF' hagree hne
  obtain ⟨h1, h2⟩ := hagree rr.full_name hne
  rw [h1, h2]

/-- A fully-default upstream summary (all optional fields absent). -/
def u0 : Upstream :=
  { name := "a", full_name := "o/a", html_url := "", description := none,
    topics := none, stargazers_count := none, forks_count := none,
    updated_at := "", created_at := "", language := none, license := none,
    size := none, open_issues_count := none, default_branch := none }

/-- A second upstream summary with a different full name. -/
def u1 : Upstream := { u0 with name := "b", full_name := "o/b" }

/-- README fetch results that fail only for `o/a`. -/
def rfFail (nm : String) : Except String (Option String) :=
  if nm = "o/a" then Except.error "net down" else Except.ok none

/-- README fetch results that succeed for `o/a` and agree with `rfFail`
everywhere else. -/
def rfOk (nm : String) : Except String (Option String) :=
  if nm = "o/a" then Except.ok (some "README") else Except.ok none

/-- Contributor fetch results that fail only for `o/a`. -/
def cfFail (nm : String) : Except String (List RawContributor) :=
  if nm = "o/a" then Except.error "boom" else Except.ok []

/-- Contributor fetch results that succeed everywhere. -/
def cfOk (_nm : String) : Except String (List RawContributor) :=
  Except.ok []

/-- Witness for `enrichment_isolated`: flipping the enrichment results of
repository `o/a` between failure and success leaves the record of the
unrelated repository `o/b` unchanged. -/
theorem enrichment_isolated_witness :
    repoObj u1 (rfFail u1.full_name) (cfFail u1.full_name)
      = repoObj u1 (rfOk u1.full_name) (cfOk u1.full_name) :=
  (enrichment_isolated u0 (Except.ok none) (Except.ok none) (Except.ok []) (Except.ok [])
      "" "").2.2.2.2.2.2 u1 rfFail rfOk cfFail cfOk
    (fun nm hnm => by
      have hnm' : ¬ (nm = "o/a") := hnm
      constructor <;> simp [rfFail, rfOk, cfFail, cfOk, hnm'])
    (by decide)

/-! ### Identity of the cleaning passes on trigger-free text -/

theorem stripImages_no_bang : ∀ (l : List Char), '!' ∉ l → stripImages l = l := by
  intro l
  induction l with
  | nil => intro; rw [stripImages]
  | cons c rest ih =>
    intro h
    have hc : ¬ (c = '!') := fun hc => h (hc ▸ List.mem_cons_self c rest)
    have hrest : '!' ∉ rest := fun hr => h (List.mem_cons_of_mem c hr)
    rw [stripImages]
    simp only [if_neg hc]
    rw [ih hrest]

theorem stripCode_no_tick : ∀ (l : List Char), '`' ∉ l → stripCode l = l := by
  intro l
  induction l with
  | nil => intro; rw [stripCode]
  | cons c rest ih =>
    intro h
    have hc : ¬ (c = '`') := fun hc => h (hc ▸ List.mem_cons_self c rest)
    have hrest : '`' ∉ rest := fun hr => h (List.mem_cons_of_mem c hr)
    match rest with
    | [] =>
      rw [stripCode]
      · rw [stripCode]
      · simp
    | [c2] =>
      rw [stripCode]
      · rw [ih hrest]
      · simp
    | c2 :: c3 :: rest3 =>
      rw [stripCode]
      rw [if_neg (by intro hand; exact hc hand.1)]
      rw [ih hrest]

theorem stripHashGo_no_hash : ∀ (l : List Char), '#' ∉ l →
    stripHashGo false l = l := by
  intro l
  induction l with
  | nil => intro; rfl
  | cons c rest ih =>
    intro h
    have hc : ¬ (c = '#') := fun hc => h (hc ▸ List.mem_cons_self c rest)
    have hrest : '#' ∉ rest := fun hr => h (List.mem_cons_of_mem c hr)
    match rest with
    | [] => simp [stripHashGo, hc]
    | c2 :: rest2 =>
      rw [stripHashGo]
      simp only [if_neg hc]
      rw [ih hrest]

theorem collapseLinks_no_bracket : ∀ (l : List Char), '[' ∉ l → collapseLinks l = l := by
  intro l
  induction l with
  | nil => intro; rw [collapseLinks]
  | cons c rest ih =>
    intro h
    have hc : ¬ (c = '[') := fun hc => h (hc ▸ List.mem_cons_self c rest)
    have hrest : '[' ∉ rest := fun hr => h (List.mem_cons_of_mem c hr)
    rw [collapseLinks]
    simp only [if_neg hc]
    rw [ih hrest]

theorem normEol_no_cr : ∀ (l : List Char), '\r' ∉ l → normEol l = l := by
  intro l
  induction l with
  | nil => intro; rw [normEol]
  | cons c rest ih =>
    intro h
    have hc : ¬ (c = '\r') := fun hc => h (hc ▸ List.mem_cons_self c rest)
    have hrest : '\r' ∉ rest := fun hr => h (List.mem_cons_of_mem c hr)
    match rest with
    | [] => rw [normEol]
    | c2 :: rest2 =>
      rw [normEol]
      rw [if_neg (by intro hand; exact hc hand.1)]
      rw [ih hrest]

theorem trimChars_no_space (l : List Char) (h : ∀ c ∈ l, isJsSpace c = false) :
    trimChars l = l := by
  unfold trimChars
  have h1 : l.dropWhile isJsSpace = l := by
    cases l with
    | nil => rfl
    | cons c rest => rw [List.dropWhile_cons_of_neg (by simp [h c (List.mem_cons_self c rest)])]
  rw [h1]
  have h2 : l.reverse.dropWhile isJsSpace = l.reverse := by
    cases hrev : l.reverse with
    | nil => rfl
    | cons c rest =>
      have hc : c ∈ l := by
        rw [← List.mem_reverse, hrev]
        exact List.mem_cons_self c rest
      rw [List.dropWhile_cons_of_neg (by simp [h c hc])]
  rw [h2, List.reverse_reverse]

/-- On text free of all cleaning triggers, the whole cleaning pipeline is
the identity. -/
theorem cleanMarkdown_id (l : List Char)
    (h1 : '!' ∉ l) (h2 : '`' ∉ l) (h3 : '#' ∉ l) (h4 : '[' ∉ l) (h5 : '\r' ∉ l)
    (h6 : ∀ c ∈ l, isJsSpace c = false) : cleanMarkdown l = l := by
  unfold cleanMarkdown stripHash
  rw [stripImages_no_bang l h1, stripCode_no_tick l h2, stripHashGo_no_hash l h3,
    collapseLinks_no_bracket l h4, normEol_no_cr l h5, trimChars_no_space l h6]

/-! ### Excerpt derivation: length bound and truncation marker -/

/-- C7: with the offline configuration (`maxLen = 1400`) the excerpt is
never longer than 1400 characters including the `'...'` marker; the
marker is appended exactly when the cleaned text exceeds 1400 characters,
and otherwise the cleaned text is returned unchanged. -/
theorem excerpt_maxlen (md : List Char) :
    (excerptMarkdown md 1400).length ≤ 1400
    ∧ ((cleanMarkdown md).length ≤ 1400 → excerptMarkdown md 1400 = cleanMarkdown md)
    ∧ (1400 < (cleanMarkdown md).length →
        excerptMarkdown md 1400 = (cleanMarkdown md).take 1397 ++ ['.', '.', '.']) := by
  by_cases hmd : md = []
  · subst hmd
    have hclean : cleanMarkdown [] = [] :=
      cleanMarkdown_id [] (by simp) (by simp) (by simp) (by simp) (by simp) (by simp)
    refine ⟨by simp [excerptMarkdown], fun _ => by simp [excerptMarkdown, hclean], fun h => ?_⟩
    rw [hclean] at h
    simp at h
  · by_cases hle : (cleanMarkdown md).length ≤ 1400
    · refine ⟨?_, fun _ => by simp [excerptMarkdown, hmd, hle], fun hgt => by omega⟩
      simp [excerptMarkdown, hmd, hle]
    · have hgt : 1400 < (cleanMarkdown md).length := by omega
      have hex : excerptMarkdown md 1400
          = (cleanMarkdown md).take 1397 ++ ['.', '.', '.'] := by
        simp [excerptMarkdown, hmd, hle]
      refine ⟨?_, fun h => by omega, fun _ => hex⟩
      rw [hex]
      simp only [List.length_append, List.length_take]
      have hmin : min 1397 (cleanMarkdown md).length = 1397 := by omega
      simp [hmin]

/-- Witness for `excerpt_maxlen`: on a short clean text the excerpt is
the cleaned text itself (no marker appended). -/
theorem excerpt_maxlen_witness :
    excerptMarkdown ['h', 'i'] 1400 = cleanMarkdown ['h', 'i'] :=
  (excerpt_maxlen ['h', 'i']).2.1
    (by rw [cleanMarkdown_id ['h', 'i'] (by decide) (by decide) (by decide) (by decide)
      (by decide) (by decide)]; decide)

/-- C8 (amended): the excerpt derivation is a pure function (a Lean
`def`) and is idempotent on already-clean input: on a string left
unchanged by every cleaning pass (no image embeds, code fences, heading
markers or link constructs to strip, no CRLF sequence, already trimmed)
and within the length limit, applying the derivation twice equals
applying it once — indeed the derivation leaves such a string
unchanged.  The CRLF condition is needed: see the counterexample on
`"a\r\r\nb"`. -/
theorem excerpt_idempotent (s : List Char)
    (himg : stripImages s = s) (hcode : stripCode s = s) (hhash : stripHash s = s)
    (hlink : collapseLinks s = s) (heol : normEol s = s) (htrim : trimChars s = s)
    (hlen : s.length ≤ 1400) :
    excerptMarkdown (excerptMarkdown s 1400) 1400 = excerptMarkdown s 1400
    ∧ excerptMarkdown s 1400 = s := by
  have hclean : cleanMarkdown s = s := by
    unfold cleanMarkdown
    rw [himg, hcode, hhash, hlink, heol, htrim]
  have hex : excerptMarkdown s 1400 = s := by
    by_cases hs : s = []
    · subst hs; simp [excerptMarkdown]
    · simp [excerptMarkdown, hs, hclean, hlen]
  constructor
  · rw [hex]; exact hex
  · exact hex

/-- Counterexample to C8 as stated: `"a\r\r\nb"` contains no image
embed, fenced code block, heading marker or link construct, is already
trimmed and far below the length limit — yet the derivation is not
idempotent on it: the `\r\n → \n` pass turns `\r\r\n` into `\r\n`
(a freshly created CRLF pair it does not revisit), which only a second
application rewrites to `\n`. -/
theorem excerpt_not_idempotent_on_cr :
    excerptMarkdown (excerptMarkdown ['a', '\r', '\r', '\n', 'b'] 1400) 1400
      ≠ excerptMarkdown ['a', '\r', '\r', '\n', 'b'] 1400 := by
  have h1 : cleanMarkdown ['a', '\r', '\r', '\n', 'b'] = ['a', '\r', '\n', 'b'] := by
    unfold cleanMarkdown stripHash
    rw [stripImages_no_bang _ (by decide), stripCode_no_tick _ (by decide),
      stripHashGo_no_hash _ (by decide), collapseLinks_no_bracket _ (by decide)]
    decide
  have h2 : cleanMarkdown ['a', '\r', '\n', 'b'] = ['a', '\n', 'b'] := by
    unfold cleanMarkdown stripHash
    rw [stripImages_no_bang _ (by decide), stripCode_no_tick _ (by decide),
      stripHashGo_no_hash _ (by decide), collapseLinks_no_bracket _ (by decide)]
    decide
  have e1 : excerptMarkdown ['a', '\r', '\r', '\n', 'b'] 1400 = ['a', '\r', '\n', 'b'] := by
    unfold excerptMarkdown
    rw [h1]
    decide
  have e2 : excerptMarkdown ['a', '\r', '\n', 'b'] 1400 = ['a', '\n', 'b'] := by
    unfold excerptMarkdown
    rw [h2]
    decide
  rw [e1, e2]
  decide

/-- Witness for `excerpt_idempotent` at the clean text `"hi"`. -/
theorem excerpt_idempotent_witness :
    excerptMarkdown (excerptMarkdown ['h', 'i'] 1400) 1400 = excerptMarkdown ['h', 'i'] 1400 :=
  (excerpt_idempotent ['h', 'i']
    (stripImages_no_bang _ (by decide)) (stripCode_no_tick _ (by decide))
    ((stripHashGo_no_hash ['h', 'i'] (by decide) : stripHashGo false ['h', 'i'] = ['h', 'i']))
    (collapseLinks_no_bracket _ (by decide)) (normEol_no_cr _ (by decide))
    (trimChars_no_space _ (by decide)) (by decide)).1

/-! ### The heading-stripping pass, line by line -/

/-- Per-line behaviour of the heading pass on a line without terminators:
everything from the first `#` that is followed by at least one more
character on the line is removed; a `#` that ends the line survives. -/
def stripHashLine : List Char → List Char
  | [] => []
  | [c] => if c = '#' then ['#'] else [c]
  | c :: c2 :: rest2 => if c = '#' then [] else c :: stripHashLine (c2 :: rest2)

theorem stripHashGo_false_cons (c : Char) (l : List Char) (hc : ¬ (c = '#')) :
    stripHashGo false (c :: l) = c :: stripHashGo false l := by
  cases l with
  | nil => simp [stripHashGo, hc]
  | cons c2 rest2 => simp [stripHashGo, hc]

theorem isTerm_ne_hash {c : Char} (h : isTerm c = true) : ¬ (c = '#') := by
  have : c = '\n' ∨ c = '\r' := by simpa [isTerm] using h
  rcases this with rfl | rfl <;> decide

theorem stripHashGo_true_append (line rest : List Char)
    (hline : ∀ c ∈ line, isTerm c = false)
    (hrest : rest = [] ∨ ∃ c' rest', rest = c' :: rest' ∧ isTerm c' = true) :
    stripHashGo true (line ++ rest) = stripHashGo false rest := by
  induction line with
  | nil =>
    simp only [List.nil_append]
    rcases hrest with rfl | ⟨c', rest', rfl, hterm⟩
    · rfl
    · rw [stripHashGo_false_cons c' rest' (isTerm_ne_hash hterm)]
      simp [stripHashGo, hterm]
  | cons c line' ih =>
    have hc : isTerm c = false := hline c (List.mem_cons_self c line')
    simp only [List.cons_append]
    have hstep : stripHashGo true (c :: (line' ++ rest)) = stripHashGo true (line' ++ rest) := by
      simp [stripHashGo, hc]
    rw [hstep]
    exact ih (fun c hc' => hline c (List.mem_cons_of_mem _ hc'))

theorem stripHashGo_count_aux (ch : Char) (hch : isTerm ch = true) :
    ∀ (n : Nat) (b : Bool) (l : List Char), l.length ≤ n →
      (stripHashGo b l).count ch = l.count ch := by
  intro n
  induction n with
  | zero =>
    intro b l hl
    have hnil : l = [] := List.eq_nil_of_length_eq_zero (by omega)
    subst hnil
    cases b <;> rfl
  | succ n ih =>
    intro b l hl
    cases l with
    | nil => cases b <;> rfl
    | cons c rest =>
      have hlr : rest.length ≤ n := by simp at hl; omega
      cases b with
      | true =>
        by_cases hc : isTerm c = true
        · simp [stripHashGo, hc, List.count_cons, ih false rest hlr]
        · have hcne : ¬ (c = ch) := fun heq => hc (heq ▸ hch)
          simp [stripHashGo, hc, List.count_cons, ih true rest hlr, hcne]
      | false =>
        by_cases hc : c = '#'
        · subst hc
          cases rest with
          | nil => rfl
          | cons c2 rest2 =>
            have hl2 : rest2.length ≤ n := by simp at hl; omega
            have hhne : ¬ (('#' : Char) = ch) := fun heq => by
              rw [← heq] at hch
              simp [isTerm] at hch
            by_cases hc2 : isTerm c2 = true
            · simp [stripHashGo, hc2, List.count_cons,
                ih false (c2 :: rest2) hlr, hhne]
            · have hc2ne : ¬ (c2 = ch) := fun heq => hc2 (heq ▸ hch)
              simp [stripHashGo, hc2, List.count_cons, ih true rest2 hl2, hhne, hc2ne]
        · rw [stripHashGo_false_cons c rest hc]
          simp [List.count_cons, ih false rest hlr]

/-- C9 (amended): the heading pass decomposes line-wise — on a line free
of terminators followed by a line break (or end of input), it blanks the
line from the first `#` that has at least one following character on the
line, keeps a `#` that is the last character of its line, preserves the
line break itself, and continues independently with the rest; moreover
it never removes a line terminator (`'\n'`/`'\r'` counts are
preserved). -/
theorem stripHash_blanks (line rest : List Char)
    (hline : ∀ c ∈ line, isTerm c = false)
    (hrest : rest = [] ∨ ∃ c' rest', rest = c' :: rest' ∧ isTerm c' = true) :
    stripHash (line ++ rest) = stripHashLine line ++ stripHash rest
    ∧ (∀ l : List Char, (stripHash l).count '\n' = l.count '\n'
        ∧ (stripHash l).count '\r' = l.count '\r') := by
  constructor
  · induction line with
    | nil => simp [stripHashLine]
    | cons c line' ih =>
      have hc : isTerm c = false := hline c (List.mem_cons_self c line')
      have hline' : ∀ c' ∈ line', isTerm c' = false :=
        fun c' hc' => hline c' (List.mem_cons_of_mem _ hc')
      by_cases hch : c = '#'
      · subst hch
        cases line' with
        | nil =>
          rcases hrest with rfl | ⟨c', rest', rfl, hterm⟩
          · simp [stripHash, stripHashGo, stripHashLine]
          · simp [stripHash, stripHashGo, hterm, stripHashLine]
        | cons c2 line'' =>
          have hc2 : isTerm c2 = false := hline' c2 (List.mem_cons_self c2 line'')
          have hstep : stripHash (('#' :: c2 :: line'') ++ rest)
              = stripHashGo true (line'' ++ rest) := by
            simp [stripHash, stripHashGo, hc2]
          rw [hstep, stripHashGo_true_append line'' rest
            (fun c' hc' => hline' c' (List.mem_cons_of_mem _ hc')) hrest]
          simp [stripHashLine, stripHash]
      · have hstep : stripHash ((c :: line') ++ rest)
            = c :: stripHash (line' ++ rest) := by
          simp only [List.cons_append]
          exact stripHashGo_false_cons c _ hch
        rw [hstep, ih hline']
        cases line' with
        | nil => simp [stripHashLine, hch]
        | cons c2 line'' => simp [stripHashLine, hch]
  · intro l
    exact ⟨stripHashGo_count_aux '\n' (by decide) l.length false l (Nat.le_refl _),
      stripHashGo_count_aux '\r' (by decide) l.length false l (Nat.le_refl _)⟩

/-- Witness for `stripHash_blanks` on the line `a#b` followed by a
newline and the line `x`. -/
theorem stripHash_blanks_witness :
    stripHash (['a', '#', 'b'] ++ ['\n', 'x'])
      = stripHashLine ['a', '#', 'b'] ++ stripHash ['\n', 'x'] :=
  (stripHash_blanks ['a', '#', 'b'] ['\n', 'x'] (by decide)
    (Or.inr ⟨'\n', ['x'], rfl, by decide⟩)).1

/-- Counterexample to C9 as stated: the input line `ab#` contains a `#`,
yet the text from that marker to the end of the line (the `#` itself) is
still present in the output — `/#.+/` needs at least one character after
the marker, so a `#` ending its line is kept, not blanked. -/
theorem stripHash_keeps_lone_hash :
    stripHash ['a', 'b', '#'] = ['a', 'b', '#'] ∧ '#' ∈ stripHash ['a', 'b', '#'] := by
  decide

/-! ### Normalizer field completeness -/

/-- Counterexample to C1 as stated: the data model includes a
`contributors` field, but the client-side fallback mapping's output
objects have no `contributors` key at all, so not every field is present
on the client path. -/
theorem client_map_missing_contributors :
    "contributors" ∈ projectFields ∧ "contributors" ∉ clientMapFields := by
  decide

/-- C1 (amended): the offline Normalizer assigns every field of the data
model (the key lists coincide), and whenever the upstream summary omits
`description`, `topics`, a numeric count, `language`, `license` or
`default_branch`, the corresponding output field still holds its
documented type-correct default; the client-side fallback mapping applies
the same defaults to every field except `contributors`, which is absent
from its output objects. -/
theorem normalizer_defaults (r : Upstream) (rf : Except String (Option String))
    (cf : Except String (List RawContributor)) :
    (∀ f ∈ projectFields, f ∈ repoObjFields)
    ∧ (∀ f ∈ projectFields, f ≠ "contributors" → f ∈ clientMapFields)
    ∧ "contributors" ∉ clientMapFields
    ∧ (r.description = none →
        (repoObj r rf cf).desc = "" ∧ (clientMapRepo r).desc = "")
    ∧ (r.topics = none →
        (repoObj r rf cf).tags = [] ∧ (clientMapRepo r).tags = [])
    ∧ (r.stargazers_count = none →
        (repoObj r rf cf).stars = 0 ∧ (clientMapRepo r).stars = 0)
    ∧ (r.forks_count = none →
        (repoObj r rf cf).forks = 0 ∧ (clientMapRepo r).forks = 0)
    ∧ (r.language = none →
        (repoObj r rf cf).language = "" ∧ (clientMapRepo r).language = "")
    ∧ (r.license = none →
        (repoObj r rf cf).license = "" ∧ (clientMapRepo r).license = "")
    ∧ (r.size = none →
        (repoObj r rf cf).size = 0 ∧ (clientMapRepo r).size = 0)
    ∧ (r.open_issues_count = none →
        (repoObj r rf cf).open_issues_count = 0 ∧ (clientMapRepo r).open_issues_count = 0)
    ∧ (r.default_branch = none →
        (repoObj r rf cf).default_branch = "main"
        ∧ (clientMapRepo r).default_branch = "main")
    ∧ (repoObj r rf cf).featured = false ∧ (repoObj r rf cf).screenshots = []
    ∧ (repoObj r rf cf).thumbnail = safeThumbnail r.full_name
    ∧ (clientMapRepo r).featured = false ∧ (clientMapRepo r).screenshots = []
    ∧ (clientMapRepo r).thumbnail = safeThumbnail r.full_name
    ∧ (clientMapRepo r).readme_excerpt = "" := by
  refine ⟨by decide, by decide, by decide, ?_, ?_, ?_, ?_, ?_, ?_, ?_, ?_, ?_,
    rfl, rfl, rfl, rfl, rfl, rfl, rfl⟩ <;>
    (intro h;
     constructor <;>
       simp [repoObj, clientMapRepo, jsOrStr, jsTopics, jsOrNat, licenseStr, h])

/-- Witness for `normalizer_defaults` at the all-defaults upstream
summary `u0`. -/
theorem normalizer_defaults_witness :
    (repoObj u0 (Except.ok none) (Except.ok [])).desc = ""
    ∧ (clientMapRepo u0).default_branch = "main" := by
  have h := normalizer_defaults u0 (Except.ok none) (Except.ok [])
  exact ⟨(h.2.2.2.1 rfl).1, (h.2.2.2.2.2.2.2.2.2.2.2.1 rfl).2⟩

/-! ### Client-side fallback: a single unpaginated listing request -/

theorem setFeaturedC_eq_self {p : ClientRecord} (h : p.featured = false) :
    setFeaturedC false p = p := by
  cases p
  simp only [setFeaturedC]
  simp_all

theorem featureTop3_length (f : α → α) (l : List α) :
    (featureTop3 f l).length = l.length := by
  simp [featureTop3]
  omega

set_option maxRecDepth 40000 in
/-- C10: the client-side fallback issues its one listing request with
`per_page=100` and no `page` parameter (the URL literally contains
`per_page=100` and no `&page=`/`?page=`), so it never paginates: it
returns exactly one record per repository of the first upstream page —
at most 100, and exactly 100 for an account with more than 100
repositories — and, up to the featured flags, exactly the mapped first
100 repositories. -/
theorem client_fetch_single_page (repos : List Upstream) :
    ("per_page=100".toList <:+: (clientListUrl FALLBACK_USERNAME).toList)
    ∧ ¬ ("&page=".toList <:+: (clientListUrl FALLBACK_USERNAME).toList)
    ∧ ¬ ("?page=".toList <:+: (clientListUrl FALLBACK_USERNAME).toList)
    ∧ (fetchGitHubRepos repos).length = min 100 repos.length
    ∧ (100 < repos.length → (fetchGitHubRepos repos).length = 100)
    ∧ ((fetchGitHubRepos repos).map (setFeaturedC false)).Perm
        ((repos.take 100).map clientMapRepo) := by
  have hserve : serveRepoList repos 100 1 = repos.take 100 := by
    simp [serveRepoList]
  have hlen : (fetchGitHubRepos repos).length = min 100 repos.length := by
    unfold fetchGitHubRepos
    rw [featureTop3_length, (sortByKey_perm _ _).length_eq, hserve]
    simp
  refine ⟨by decide, by decide, by decide, hlen, fun hgt => by omega, ?_⟩
  unfold fetchGitHubRepos
  rw [hserve]
  have hmap : (featureTop3 (setFeaturedC true)
      (sortByKey (fun p => p.stars) ((repos.take 100).map clientMapRepo))).map
        (setFeaturedC false)
      = (sortByKey (fun p => p.stars) ((repos.take 100).map clientMapRepo)).map
          (setFeaturedC false) := by
    apply featureTop3_map_eq
    intro a
    cases a
    simp [setFeaturedC]
  rw [hmap]
  have hperm := (sortByKey_perm (fun p : ClientRecord => p.stars)
    ((repos.take 100).map clientMapRepo)).map (setFeaturedC false)
  apply hperm.trans
  have heq : ((repos.take 100).map clientMapRepo).map (setFeaturedC false)
      = (repos.take 100).map clientMapRepo := by
    rw [List.map_map]
    apply List.map_congr_left
    intro r _
    exact setFeaturedC_eq_self rfl
  rw [heq]

/-- Witness for `client_fetch_single_page`: an account with 101
repositories yields exactly 100 client-side records. -/
theorem client_fetch_single_page_witness :
    (fetchGitHubRepos (List.replicate 101 u0)).length = 100 :=
  (client_fetch_single_page (List.replicate 101 u0)).2.2.2.2.1 (by simp)

end Portfolio
